import Mathlib

/-
  Verification development for the `dbf` Go package (a reader for
  dBASE-family .dbf files).  The repository contains three snapshots of the
  package; the definitions below embed the most evolved one
  (the snapshot with `FilterField`, `SetReadFields`, `SetFilter`,
  `filterValue` and `getFieldValueCasting`), plus — where a behavior only
  exists there — the date-flag logic of the `dbf.go` snapshot.

  Go byte strings are modelled as `List Nat` (one entry per byte),
  machine integers as `Nat`/`Int` with explicit wrap-around where it
  matters, and `float64` parses as exact rationals (the claims under
  study concern parser dispatch and error behavior, not rounding).
-/

deriving instance DecidableEq for Except

namespace Dbf

/-- Byte list of an ASCII string literal (used to write concrete inputs). -/
def strBytes (s : String) : List Nat := s.data.map Char.toNat

/-- ASCII whitespace, the characters `strings.TrimSpace` strips from DBF
content (DBF fields are ASCII; the further Unicode spaces never occur). -/
def isSpaceByte (c : Nat) : Bool :=
  c = 32 || c = 9 || c = 10 || c = 11 || c = 12 || c = 13

/-- Go `strings.TrimSpace` on an ASCII byte string. -/
def trimSpace (s : List Nat) : List Nat :=
  ((s.dropWhile isSpaceByte).reverse.dropWhile isSpaceByte).reverse

def isDigitByte (c : Nat) : Bool := 48 ≤ c && c ≤ 57

def digitsToNat (l : List Nat) : Nat := l.foldl (fun a c => 10 * a + (c - 48)) 0

def allDigits (l : List Nat) : Bool := l.all isDigitByte

/-- Strip one optional leading sign; returns (isNegative, rest). -/
def stripSign (s : List Nat) : Bool × List Nat :=
  match s with
  | 43 :: rest => (false, rest)
  | 45 :: rest => (true, rest)
  | _ => (false, s)

/-- Go `strconv.Atoi`: optional sign, one or more decimal digits, value
within the 64-bit signed range; `none` models a non-nil error (syntax or
range). -/
def Atoi (s : List Nat) : Option Int :=
  if s = [] then none
  else
    let p := stripSign s
    if p.2 ≠ [] ∧ allDigits p.2 then
      let v : Int := if p.1 then -(digitsToNat p.2 : Int) else (digitsToNat p.2 : Int)
      if -(2 ^ 63) ≤ v ∧ v ≤ 2 ^ 63 - 1 then some v else none
    else none

/-- Mantissa of a Go float literal: digits with at most one interior dot,
at least one digit overall.  Returns the digits' value with the count of
fractional digits. -/
def parseMantissa (m : List Nat) : Option (Nat × Nat) :=
  let intPart := m.takeWhile isDigitByte
  match m.dropWhile isDigitByte with
  | [] => if intPart = [] then none else some (digitsToNat intPart, 0)
  | 46 :: frac =>
      if allDigits frac ∧ (intPart ≠ [] ∨ frac ≠ []) then
        some (digitsToNat (intPart ++ frac), frac.length)
      else none
  | _ => none

/-- Go `strconv.ParseFloat(·, 64)` on the decimal forms (optional sign,
digits with optional dot, optional decimal exponent), with the exact
rational value; hex floats, inf/nan and float64 rounding/overflow are not
exercised by any claim and are outside this model. -/
def ParseFloat (s : List Nat) : Option Rat :=
  if s = [] then none
  else
    let p := stripSign s
    let mpart := p.2.takeWhile (fun c => !(c = 101 || c = 69))
    match parseMantissa mpart with
    | none => none
    | some mf =>
      let base : Rat := (mf.1 : Rat) / (10 : Rat) ^ mf.2
      let signed := if p.1 then -base else base
      match p.2.dropWhile (fun c => !(c = 101 || c = 69)) with
      | [] => some signed
      | _ :: etail =>
        let ep := stripSign etail
        if ep.2 ≠ [] ∧ allDigits ep.2 then
          let e := digitsToNat ep.2
          some (if ep.1 then signed / (10 : Rat) ^ e else signed * (10 : Rat) ^ e)
        else none

def isLeapYear (y : Nat) : Bool := y % 4 = 0 && (y % 100 ≠ 0 || y % 400 = 0)

def daysInMonth (y m : Nat) : Nat :=
  if m = 2 then (if isLeapYear y then 29 else 28)
  else if m = 4 || m = 6 || m = 9 || m = 11 then 30
  else 31

/-- Go `time.Parse("20060102", ·)` restricted to the date components:
exactly 8 digits YYYYMMDD, with month and day range-checked (Go's parser
rejects out-of-range components). -/
def timeParseYYYYMMDD (s : List Nat) : Option (Nat × Nat × Nat) :=
  if s.length = 8 ∧ allDigits s then
    let y := digitsToNat (s.take 4)
    let m := digitsToNat ((s.drop 4).take 2)
    let d := digitsToNat (s.drop 6)
    if 1 ≤ m ∧ m ≤ 12 ∧ 1 ≤ d ∧ d ≤ daysInMonth y m then some (y, m, d) else none
  else none

/-- Go `time.Parse("2006-01-02", ·)`: ISO date with range checks. -/
def timeParseISO (s : List Nat) : Option (Nat × Nat × Nat) :=
  if s.length = 10 ∧ s.getD 4 0 = 45 ∧ s.getD 7 0 = 45
      ∧ allDigits (s.take 4) ∧ allDigits ((s.drop 5).take 2) ∧ allDigits (s.drop 8) then
    let y := digitsToNat (s.take 4)
    let m := digitsToNat ((s.drop 5).take 2)
    let d := digitsToNat (s.drop 8)
    if 1 ≤ m ∧ m ≤ 12 ∧ 1 ≤ d ∧ d ≤ daysInMonth y m then some (y, m, d) else none
  else none

/-- Decimal digits of `n`, left-padded with ASCII zeros to width `w`. -/
def padDigits (w n : Nat) : List Nat :=
  let ds := (Nat.toDigits 10 n).map Char.toNat
  List.replicate (w - ds.length) 48 ++ ds

/-- Go `tm.Format("2006-01-02")` for a pure date value. -/
def formatISO (y m d : Nat) : List Nat :=
  padDigits 4 y ++ [45] ++ padDigits 2 m ++ [45] ++ padDigits 2 d

/-- Structure `Field` — the on-disk field descriptor (`Name [11]byte`, `Type byte`,
`Offset uint32` (advisory, unused), `Len uint8`, `DecimalPlaces uint8`). -/
structure Field where
  name : List Nat
  type : Nat
  offset : Nat
  len : Nat
  decimalPlaces : Nat
deriving DecidableEq, Repr
instance : Inhabited Field := ⟨⟨[], 0, 0, 0, 0⟩⟩

/-- Structure `Filter` — Go struct of `Condition string` and `Value string`; the zero value
(empty condition and value) is "no filter attached". -/
structure Filter where
  condition : String
  value : List Nat
deriving DecidableEq, Repr
instance : Inhabited Filter := ⟨⟨"", []⟩⟩

/-- Structure `FilterField` — catalog entry: a descriptor plus the read-inclusion
flag and the optional filter. -/
structure FilterField where
  filter : Filter
  read : Bool
  field : Field
deriving DecidableEq, Repr
instance : Inhabited FilterField := ⟨⟨default, true, default⟩⟩

/-- The dynamic type of one decoded Go value (`interface{}`):
`str` = Go `string`, `int` = Go `int`, `float` = Go `float64`,
`char` = Go rune results of the 'L' case, `int32` = Go `int32` results of
the 'I' case (runes and int32 are the same Go dynamic type; both fall to
the default branch of the filter's type switch), `date` = Go `time.Time`
(midnight UTC, so a plain calendar date). -/
inductive DbfValue where
  | str (s : List Nat)
  | int (n : Int)
  | float (q : Rat)
  | char (c : Nat)
  | int32 (n : Int)
  | date (y m d : Nat)
deriving DecidableEq, Repr
/-- The non-nil `error` values produced by the casting and filter code,
kept structural (one constructor per `fmt.Errorf` site) so that callers
can distinguish them. -/
inductive GoError where
  | parseFloatErr (s : List Nat)
  | parseIntErr (s : List Nat)
  | invalidLogical (name : List Nat)
  | dateParseErr (s : List Nat)
  | wrongFilterCondition (cond : String) (name : List Nat) (ty : String)
  | wrongFilterType (name : List Nat) (format : String)
  | unsupportedFilter (name : List Nat)
deriving DecidableEq, Repr
/-- Outcome of `getFieldValueCasting`: the `(interface{}, error)` pair —
`ok none` is the `(nil, nil)` result of an all-space date — plus `panicked`
for the run-time panic of `binary.LittleEndian.Uint32` on a short buffer. -/
inductive CastOut where
  | ok (v : Option DbfValue)
  | err (e : GoError)
  | panicked
deriving DecidableEq, Repr
/-- Go `int32(·)` conversion of an unsigned 32-bit word. -/
def toInt32 (n : Nat) : Int := if n < 2 ^ 31 then (n : Int) else (n : Int) - 2 ^ 32

def le16 (a b : Nat) : Nat := a + 256 * b

def le32 (a b c d : Nat) : Nat := a + 256 * b + 65536 * c + 16777216 * d

/-- Functions `tillzero`/`FieldName`: a descriptor's name truncated at the first
NUL byte. -/
def tillzero (s : List Nat) : List Nat := s.takeWhile (· ≠ 0)

/-- Function `getFieldValueCasting(f Field, buf []byte)` —
per-type decoding of one raw field span (the switch cases 'F' = 70,
'I' = 73, 'N' = 78, 'L' = 76, 'D' = 68, default = string). -/
def getFieldValueCasting (f : Field) (buf : List Nat) : CastOut :=
  let fieldVal := trimSpace buf
  if f.type = 70 then
    match ParseFloat fieldVal with
    | some q => .ok (some (.float q))
    | none => .err (.parseFloatErr fieldVal)
  else if f.type = 73 then
    -- binary.LittleEndian.Uint32 panics when len(buf) < 4
    if buf.length < 4 then .panicked
    else .ok (some (.int32 (toInt32
      (le32 (buf.getD 0 0) (buf.getD 1 0) (buf.getD 2 0) (buf.getD 3 0)))))
  else if f.type = 78 then
    if fieldVal = [] then .ok (some (.int 0))
    else if f.decimalPlaces = 0 then
      match Atoi fieldVal with
      | some n => .ok (some (.int n))
      | none => .err (.parseIntErr fieldVal)
    else
      match ParseFloat fieldVal with
      | some q => .ok (some (.float q))
      | none => .err (.parseFloatErr fieldVal)
  else if f.type = 76 then
    if fieldVal = [89] ∨ fieldVal = [84] then .ok (some (.char 84))
    else if fieldVal = [78] ∨ fieldVal = [70] then .ok (some (.char 70))
    else if fieldVal = [63] ∨ fieldVal = [] then .ok (some (.char 32))
    else .err (.invalidLogical f.name)
  else if f.type = 68 then
    if buf = List.replicate 8 32 then .ok none
    else
      match timeParseYYYYMMDD fieldVal with
      | some ymd => .ok (some (.date ymd.1 ymd.2.1 ymd.2.2))
      | none => .err (.dateParseErr fieldVal)
  else .ok (some (.str fieldVal))

/-- Outcome of `filterValue`: the `(bool, error)` pair plus propagated
panic. -/
inductive FilterOut where
  | ok (b : Bool)
  | err (e : GoError)
  | panicked
deriving DecidableEq, Repr
/-- Strict lexicographic order on (year, month, day) — `time.Before` /
`time.After` for midnight-UTC dates. -/
def dateLtB (a b : Nat × Nat × Nat) : Bool :=
  if a.1 < b.1 then true
  else if a.1 = b.1 then
    if a.2.1 < b.2.1 then true
    else if a.2.1 = b.2.1 then a.2.2 < b.2.2
    else false
  else false

/-- Function `filterValue(filteredField FilterField, buf []byte)` —
decodes the raw span and dispatches on the decoded value's dynamic type
(the Go type switch: `string`, `time.Time`, `int`, default). -/
def filterValue (ff : FilterField) (buf : List Nat) : FilterOut :=
  match getFieldValueCasting ff.field buf with
  | .err e => .err e
  | .panicked => .panicked
  | .ok fieldValue =>
    match fieldValue with
    | some (.str s) =>
      if ff.filter.condition = "=" then .ok (s == ff.filter.value)
      else .err (.wrongFilterCondition ff.filter.condition ff.field.name "string")
    | some (.date y m d) =>
      match timeParseISO ff.filter.value with
      | none => .err (.wrongFilterType ff.field.name "Y-m-d")
      | some fv =>
        if ff.filter.condition = "=" then .ok ((y, m, d) == fv)
        else if ff.filter.condition = ">" then .ok (dateLtB fv (y, m, d))
        else if ff.filter.condition = "<" then .ok (dateLtB (y, m, d) fv)
        else .err (.wrongFilterCondition ff.filter.condition ff.field.name "time.Time")
    | some (.int n) =>
      match Atoi ff.filter.value with
      | none => .err (.wrongFilterType ff.field.name "int")
      | some fv =>
        if ff.filter.condition = "=" then .ok (n == fv)
        else if ff.filter.condition = ">" then .ok (decide (fv < n))
        else if ff.filter.condition = "<" then .ok (decide (n < fv))
        else .err (.wrongFilterCondition ff.filter.condition ff.field.name "int")
    | _ => .err (.unsupportedFilter ff.field.name)

/-- Type `Record` — the Go string-to-interface map, as an association list in
which the most recent insertion comes first (map writes overwrite). An
entry's value is an `Option DbfValue` because the 'D' cast can store a nil
interface under the key. -/
def Record := List (List Nat × Option DbfValue)

instance : DecidableEq Record := inferInstanceAs (DecidableEq (List _))

instance : Repr Record := inferInstanceAs (Repr (List _))

def recInsert (rec : Record) (k : List Nat) (v : Option DbfValue) : Record :=
  (k, v) :: rec

def recLookup (rec : Record) (k : List Nat) : Option (Option DbfValue) :=
  match rec with
  | [] => none
  | kv :: rest => if kv.1 = k then some kv.2 else recLookup rest k

/-- The `io.ReadSeeker` over the file bytes: the content, the current
position, and — verification instrumentation — the list of every absolute
offset whose byte has been read so far. -/
structure ByteSrc where
  data : List Nat
  pos : Nat
  touched : List Nat
deriving DecidableEq, Repr
/-- The bytes `data[p..p+n)` (shorter at end of file). -/
def sliceAt (data : List Nat) (p n : Nat) : List Nat := (data.drop p).take n

/-- Go `io.ReadFull`: read exactly `n` bytes from the current position;
`none` models the non-nil (ErrUnexpected)EOF error when fewer are
available.  The bytes that were available are consumed and recorded as
touched either way. -/
def readFull (src : ByteSrc) (n : Nat) : Option (List Nat) × ByteSrc :=
  let got := sliceAt src.data src.pos n
  let src' : ByteSrc :=
    ⟨src.data, src.pos + got.length, src.touched ++ List.range' src.pos got.length⟩
  (if got.length = n then some got else none, src')

/-- The distinguishable outcomes of `Read`: a record (`ok (some rec)`),
the `(nil, nil)` "no value" result of a failed filter (`ok none`), the
structural error kinds (`*SkipError`, `*EOFError`, `*DELETEDError`, the
unexpected-marker `fmt.Errorf`, I/O errors, errors bubbled up from
casting/filtering), and a propagated panic. -/
inductive ReadOut where
  | ok (rec : Option Record)
  | ioErr
  | skip
  | eof
  | deleted (i : Nat)
  | badMarker (i b : Nat)
  | goErr (e : GoError)
  | panicked
deriving DecidableEq, Repr
def sumLens (l : List FilterField) : Nat := (l.map (fun ff => ff.field.len)).sum

/-- One iteration of the field loop of `Read` (the body of
`for i, field := range r.fields`), with `offset'` the absolute end of this
field's span (the source's `offset` variable after its
`offset = offset + int64(f.Len)` update).  A field is read when it is
included or carries a filter with a non-empty comparison literal; the
filter predicate is evaluated only when its literal is non-empty; an
excluded, unfiltered field is skipped by an absolute seek to `offset'`.
`Sum.inl out` aborts the whole record with outcome `out`; `Sum.inr ins`
continues, with `ins` the value to store (when the field is included). -/
def stepField (ff : FilterField) (src : ByteSrc) (offset' : Nat) :
    (Sum ReadOut (Option (Option DbfValue))) × ByteSrc :=
  if ff.read || ff.filter.value ≠ [] then
    match readFull src ff.field.len with
    | (none, src') => (Sum.inl .ioErr, src')
    | (some buf, src') =>
      let fres := if ff.filter.value = [] then FilterOut.ok true else filterValue ff buf
      match fres with
      | .err e => (Sum.inl (.goErr e), src')
      | .panicked => (Sum.inl .panicked, src')
      | .ok false => (Sum.inl (.ok none), src')
      | .ok true =>
        if ff.read then
          match getFieldValueCasting ff.field buf with
          | .err e => (Sum.inl (.goErr e), src')
          | .panicked => (Sum.inl .panicked, src')
          | .ok v => (Sum.inr (some v), src')
        else (Sum.inr none, src')
  else (Sum.inr none, ⟨src.data, offset', src.touched⟩)

/-- The per-field loop of `Read`: iterate `stepField` over the catalog,
threading the byte source and the absolute end-of-span offset, inserting
each included field's decoded value under its NUL-truncated name. -/
def readFields (fs : List FilterField) (src : ByteSrc) (offset : Nat)
    (rec : Record) : ReadOut × ByteSrc :=
  match fs with
  | [] => (.ok (some rec), src)
  | ff :: rest =>
    match stepField ff src (offset + ff.field.len) with
    | (Sum.inl out, src') => (out, src')
    | (Sum.inr none, src') => readFields rest src' (offset + ff.field.len) rec
    | (Sum.inr (some v), src') =>
        readFields rest src' (offset + ff.field.len)
          (recInsert rec (tillzero ff.field.name) v)

-- SetFlags constants
def FlagDateAssql : Nat := 1
def FlagSkipWeird : Nat := 2
def FlagSkipDeleted : Nat := 4
def FlagEmptyDateAsZero : Nat := 8

/-- The `Reader` structure: the byte source's content, the header-derived
metadata, the field catalog and the behavior-flags bitmask (flags are a
small bitmask; the `int32` field is modelled as `Nat`). -/
structure Reader where
  data : List Nat
  year : Nat
  month : Nat
  day : Nat
  length : Nat
  fields : List FilterField
  headerlen : Nat
  recordlen : Nat
  flags : Nat
deriving DecidableEq, Repr
/-- Method `Read(i int)` — seek to
`headerlen + recordlen * i`, read and dispatch on the deletion marker
(0x1A = 26, '*' = 42, ' ' = 32, in the source's order of checks), then run
the field loop.  Returns the outcome together with the final byte-source
state (whose `touched` lists every offset read). -/
def Read (r : Reader) (i : Nat) : ReadOut × ByteSrc :=
  let offset := r.headerlen + r.recordlen * i
  let src0 : ByteSrc := ⟨r.data, offset, []⟩
  match readFull src0 1 with
  | (none, src') => (.ioErr, src')
  | (some got, src') =>
    let b := got.headD 0
    if b = 26 then
      if r.flags &&& FlagSkipWeird ≠ 0 then (.skip, src') else (.eof, src')
    else if b = 42 then
      if r.flags &&& FlagSkipDeleted ≠ 0 then (.skip, src') else (.deleted i, src')
    else if b ≠ 32 then (.badMarker i b, src')
    else readFields r.fields src' (offset + 1) []

/-- Method `SetReadFields(readFields []string)` — a field's inclusion flag
becomes true exactly when its (NUL-truncated) name occurs in the list. -/
def SetReadFields (r : Reader) (names : List (List Nat)) : Reader :=
  { r with fields := r.fields.map (fun ff =>
      { ff with read := names.contains (tillzero ff.field.name) }) }

/-- Method `SetFilter(filterFields map[string]Filter)` — attach the given filter
to each field whose name is a key of the map (modelled as an association
list), leaving the other fields untouched. -/
def SetFilter (r : Reader) (filterFields : List (List Nat × Filter)) : Reader :=
  { r with fields := r.fields.map (fun ff =>
      match filterFields.lookup (tillzero ff.field.name) with
      | some flt => { ff with filter := flt }
      | none => ff) }

/-- Outcome of `FieldInfo`: the descriptor, the "No Field number" error,
or the run-time panic of a negative slice index. -/
inductive FieldInfoOut where
  | info (f : Field)
  | noField (i : Int)
  | panicked
deriving DecidableEq, Repr
/-- Method `FieldInfo(i int)` — the source checks
`i >= len(r.fields)` first and otherwise indexes `r.fields[i]`, which
panics for a negative `i`. -/
def FieldInfo (r : Reader) (i : Int) : FieldInfoOut :=
  if (r.fields.length : Int) ≤ i then .noField i
  else if i < 0 then .panicked
  else
    match r.fields.get? i.toNat with
    | some ff => .info ff.field
    | none => .panicked

/-- Structured errors of `NewReader`. -/
inductive OpenErr where
  | ioErr
  | badVersion (v : Nat)
  | badFieldType (t : Nat) (name : List Nat)
  | badTerminator (b : Nat)
deriving DecidableEq, Repr
/-- Recognized type codes ('C','N','F','L','D','I'), the `validate`
method. -/
def validTypeCode (t : Nat) : Bool :=
  t = 67 || t = 78 || t = 70 || t = 76 || t = 68 || t = 73

/-- The descriptor-reading loop of `NewReader`: up to `n` 32-byte
descriptors starting at `pos`; stops early when a descriptor's second
name byte is 0x0D; each kept descriptor's type code must validate.
Returns the fields with the position after the consumed descriptors. -/
def parseFields (data : List Nat) (pos n : Nat) (acc : List Field) :
    Except OpenErr (List Field × Nat) :=
  match n with
  | 0 => .ok (acc.reverse, pos)
  | n' + 1 =>
    if pos + 32 ≤ data.length then
      let chunk := sliceAt data pos 32
      if chunk.getD 1 0 = 13 then .ok (acc.reverse, pos + 32)
      else
        let f : Field := ⟨chunk.take 11, chunk.getD 11 0,
          le32 (chunk.getD 12 0) (chunk.getD 13 0) (chunk.getD 14 0) (chunk.getD 15 0),
          chunk.getD 16 0, chunk.getD 17 0⟩
        if validTypeCode f.type then parseFields data (pos + 32) n' (f :: acc)
        else .error (.badFieldType f.type (tillzero f.name))
    else .error .ioErr

/-- Function `NewReader` — read the 12-byte packed header at offset 0 (version,
year, month, day, Nrec uint32, Headerlen uint16, Recordlen uint16, all
little-endian), require version 0x03, seek to 0x20, read
`Headerlen/32 - 1` (uint16 arithmetic, so an underflow wraps) candidate
descriptors, then require the next byte to be the 0x0D header terminator.
Every field starts included with the zero-value (empty) filter. -/
def NewReader (data : List Nat) : Except OpenErr Reader :=
  if 12 ≤ data.length then
    let version := data.getD 0 0
    if version = 3 then
      let nrec := le32 (data.getD 4 0) (data.getD 5 0) (data.getD 6 0) (data.getD 7 0)
      let hl := le16 (data.getD 8 0) (data.getD 9 0)
      let rl := le16 (data.getD 10 0) (data.getD 11 0)
      let nfields := (hl / 32 + 65535) % 65536
      match parseFields data 32 nfields [] with
      | .error e => .error e
      | .ok fsp =>
        if fsp.2 < data.length then
          if data.getD fsp.2 0 = 13 then
            .ok ⟨data, 1900 + data.getD 1 0, data.getD 2 0, data.getD 3 0, nrec,
              fsp.1.map (fun f => ⟨⟨"", []⟩, true, f⟩), hl, rl, 0⟩
          else .error (.badTerminator (data.getD fsp.2 0))
        else .error .ioErr
    else .error (.badVersion version)
  else .error .ioErr

/-- The date ('D') case of `Read` in the `dbf.go` snapshot (the only
snapshot in which the date behavior flags are consulted): parse the
trimmed span as YYYYMMDD; on success emit ISO text under `FlagDateAssql`
and a calendar date otherwise; on an empty span emit "0000-00-00" under
`FlagDateAssql|FlagEmptyDateAsZero`, the empty text under `FlagDateAssql`
alone, and the zero time (year 1, January 1) with neither; a non-empty
unparsable span is an error. -/
def readDateField (flags : Nat) (buf : List Nat) : Except GoError DbfValue :=
  let fieldVal := trimSpace buf
  match timeParseYYYYMMDD fieldVal with
  | some ymd =>
    if flags &&& FlagDateAssql ≠ 0 then .ok (.str (formatISO ymd.1 ymd.2.1 ymd.2.2))
    else .ok (.date ymd.1 ymd.2.1 ymd.2.2)
  | none =>
    if fieldVal = [] then
      if flags &&& FlagDateAssql ≠ 0 then
        if flags &&& FlagEmptyDateAsZero ≠ 0 then .ok (.str (strBytes "0000-00-00"))
        else .ok (.str [])
      else .ok (.date 1 1 1)
    else .error (.dateParseErr fieldVal)

/-- Reference recomputation of a successful field loop from the raw bytes:
field `j`'s span starts at `pos + sumLens (fs.take j)` and its decoded
value is stored under its NUL-truncated name when it is included.  Used to
state byte-offset correctness of the projection seek. -/
def decodeFields (data : List Nat) (pos : Nat) (fs : List FilterField)
    (rec : Record) : Option Record :=
  match fs with
  | [] => some rec
  | ff :: rest =>
    let buf := sliceAt data pos ff.field.len
    if ff.read then
      match getFieldValueCasting ff.field buf with
      | .ok v => decodeFields data (pos + ff.field.len) rest
          (recInsert rec (tillzero ff.field.name) v)
      | _ => none
    else decodeFields data (pos + ff.field.len) rest rec

/-- Normalizer for the implicit empty-literal convention: a filter whose
comparison literal is empty is replaced by the zero-value filter (no
filter attached). -/
def clearEmptyFilter (ff : FilterField) : FilterField :=
  if ff.filter.value = [] then { ff with filter := ⟨"", []⟩ } else ff

/-- Specification of one continuing loop step, as a predicate on the
`stepField` result: a continuation leaves the position at the end of the
span and stores exactly the cast of the field's slice when the field is
included, nothing otherwise (aborting steps are unconstrained here). -/
def contSpec (ff : FilterField) (src : ByteSrc) :
    (Sum ReadOut (Option (Option DbfValue))) × ByteSrc → Prop
  | (Sum.inl out, _) => ∀ r : Record, out ≠ ReadOut.ok (some r)
  | (Sum.inr ins, src') =>
      src'.pos = src.pos + ff.field.len ∧
      (if ff.read then
        ∃ v, getFieldValueCasting ff.field (sliceAt src.data src.pos ff.field.len)
            = CastOut.ok v ∧ ins = some v
       else ins = none)

/-- The byte-source state right after `Read` has consumed record `i`'s
deletion marker. -/
def markerSrc (r : Reader) (i : Nat) : ByteSrc :=
  ⟨r.data, r.headerlen + r.recordlen * i + 1, [r.headerlen + r.recordlen * i]⟩

def c4data : List Nat :=
  [3, 95, 1, 1, 2, 0, 0, 0, 97, 0, 6, 0] ++ List.replicate 20 0
  ++ ([78, 65, 77, 69] ++ List.replicate 7 0 ++ [67, 0, 0, 0, 0, 3, 0]
      ++ List.replicate 14 0)
  ++ ([65, 71, 69] ++ List.replicate 8 0 ++ [78, 0, 0, 0, 0, 2, 0]
      ++ List.replicate 14 0)
  ++ [13]
  ++ ([32] ++ strBytes "Bob" ++ strBytes "35")
  ++ ([32] ++ strBytes "Ann" ++ strBytes " 7")

/-- A two-column catalog {NAME, AGE} over `c4data` (the reader `NewReader`
builds from it). -/
def c4r0 : Reader :=
  ⟨c4data, 1995, 1, 1, 2,
    [⟨⟨"", []⟩, true, ⟨[78, 65, 77, 69, 0, 0, 0, 0, 0, 0, 0], 67, 0, 3, 0⟩⟩,
     ⟨⟨"", []⟩, true, ⟨[65, 71, 69, 0, 0, 0, 0, 0, 0, 0, 0], 78, 0, 2, 0⟩⟩],
    97, 6, 0⟩

/-- C7 (counterexample): `NewReader` never checks that the declared
record length covers `1 + sum of field lengths`, so a validly-opened file
whose one 'C' field is longer than the record length makes `read(0)` read
offsets at and past `headerLength + recordLength × recordCount`. -/
def c7badData : List Nat :=
  [3, 95, 1, 1, 1, 0, 0, 0, 65, 0, 2, 0] ++ List.replicate 20 0
  ++ ([65] ++ List.replicate 10 0 ++ [67, 0, 0, 0, 0, 5, 0] ++ List.replicate 14 0)
  ++ [13] ++ [32] ++ strBytes "hello"

def c7badReader : Reader :=
  ⟨c7badData, 1995, 1, 1, 1,
    [⟨⟨"", []⟩, true, ⟨[65, 0, 0, 0, 0, 0, 0, 0, 0, 0, 0], 67, 0, 5, 0⟩⟩], 65, 2, 0⟩

def c7okData : List Nat :=
  [3, 95, 1, 1, 1, 0, 0, 0, 65, 0, 6, 0] ++ List.replicate 20 0
  ++ ([65] ++ List.replicate 10 0 ++ [67, 0, 0, 0, 0, 5, 0] ++ List.replicate 14 0)
  ++ [13] ++ [32] ++ strBytes "hello"

def c7okReader : Reader :=
  ⟨c7okData, 1995, 1, 1, 1,
    [⟨⟨"", []⟩, true, ⟨[65, 0, 0, 0, 0, 0, 0, 0, 0, 0, 0], 67, 0, 5, 0⟩⟩], 65, 6, 0⟩

/-! ### Lemmas -/

lemma sliceAt_length (data : List Nat) (p n : Nat) :
    (sliceAt data p n).length = min n (data.length - p) := by
  simp [sliceAt]

lemma readFull_eq_some {src : ByteSrc} {n : Nat} {buf : List Nat} {src' : ByteSrc}
    (h : readFull src n = (some buf, src')) :
    buf = sliceAt src.data src.pos n ∧
      src' = ⟨src.data, src.pos + n, src.touched ++ List.range' src.pos n⟩ := by
  simp only [readFull] at h
  by_cases hc : (sliceAt src.data src.pos n).length = n
  · rw [if_pos hc, hc, Prod.mk.injEq] at h
    exact ⟨(Option.some.inj h.1).symm, h.2.symm⟩
  · simp [hc] at h

lemma readFull_eq_none {src : ByteSrc} {n : Nat} {src' : ByteSrc}
    (h : readFull src n = (none, src')) :
    src'.data = src.data ∧
      (∀ x ∈ src'.touched, x ∈ src.touched ∨ (src.pos ≤ x ∧ x < src.pos + n)) := by
  simp only [readFull] at h
  by_cases hc : (sliceAt src.data src.pos n).length = n
  · simp [hc] at h
  · rw [if_neg hc] at h
    obtain ⟨-, h2⟩ := Prod.mk.injEq .. ▸ h
    refine ⟨by rw [← h2], ?_⟩
    intro x hx
    rw [← h2] at hx
    simp only [List.mem_append] at hx
    rcases hx with hx | hx
    · exact Or.inl hx
    · right
      have := List.mem_range'_1.mp hx
      have hl := sliceAt_length src.data src.pos n
      omega

lemma sumLens_nil : sumLens [] = 0 := rfl

lemma sumLens_cons (ff : FilterField) (rest : List FilterField) :
    sumLens (ff :: rest) = ff.field.len + sumLens rest := by
  simp [sumLens]

lemma recLookup_recInsert (rec : Record) (k k' : List Nat) (v : Option DbfValue) :
    recLookup (recInsert rec k v) k' = if k = k' then some v else recLookup rec k' := by
  simp [recInsert, recLookup]

/-- Lemma: `stepField` never changes the data and only touches offsets within the
current field's span. -/
lemma stepField_sub (ff : FilterField) (src : ByteSrc) (offset' : Nat) :
    (stepField ff src offset').2.data = src.data ∧
      ∀ x ∈ (stepField ff src offset').2.touched,
        x ∈ src.touched ∨ (src.pos ≤ x ∧ x < src.pos + ff.field.len) := by
  have hnone : ∀ src' : ByteSrc, readFull src ff.field.len = (none, src') →
      src'.data = src.data ∧ ∀ x ∈ src'.touched,
        x ∈ src.touched ∨ (src.pos ≤ x ∧ x < src.pos + ff.field.len) :=
    fun _ h => readFull_eq_none h
  have hsome : ∀ (buf : List Nat) (src' : ByteSrc),
      readFull src ff.field.len = (some buf, src') →
      src'.data = src.data ∧ ∀ x ∈ src'.touched,
        x ∈ src.touched ∨ (src.pos ≤ x ∧ x < src.pos + ff.field.len) := by
    intro buf src' h
    obtain ⟨-, h2⟩ := readFull_eq_some h
    subst h2
    refine ⟨rfl, ?_⟩
    intro x hx
    simp only [List.mem_append] at hx
    rcases hx with hx | hx
    · exact Or.inl hx
    · have := List.mem_range'_1.mp hx
      right
      omega
  unfold stepField
  split
  · split
    · next src' heq => exact hnone src' heq
    · next buf src' heq =>
      repeat' first
      | exact hsome buf src' heq
      | split
      | simp only []
  · exact ⟨rfl, fun x hx => Or.inl hx⟩

lemma stepField_spec (ff : FilterField) (src : ByteSrc) :
    contSpec ff src (stepField ff src (src.pos + ff.field.len)) := by
  unfold stepField
  split
  · split
    · intro r h; simp at h
    · next buf src'' heq =>
      obtain ⟨hbuf, h2⟩ := readFull_eq_some heq
      subst hbuf
      have hpos'' : src''.pos = src.pos + ff.field.len := by rw [h2]
      split
      · -- empty comparison literal: predicate skipped
        split
        · next hrd =>
          split
          · next e hcast => intro r h; simp at h
          · intro r h; simp at h
          · next v hcast =>
            exact ⟨hpos'', by rw [if_pos hrd]; exact ⟨v, hcast, rfl⟩⟩
        · next hrd => exact ⟨hpos'', by rw [if_neg hrd]⟩
      · -- literal present: filter evaluated
        split
        · next hrd =>
          split
          · next e hcast =>
            simp only []
            split
            · intro r h; simp at h
            · intro r h; simp at h
            · intro r h; simp at h
            · intro r h; simp at h
          · next hcast =>
            simp only []
            split
            · intro r h; simp at h
            · intro r h; simp at h
            · intro r h; simp at h
            · intro r h; simp at h
          · next v hcast =>
            simp only []
            split
            · intro r h; simp at h
            · intro r h; simp at h
            · intro r h; simp at h
            · exact ⟨hpos'', by rw [if_pos hrd]; exact ⟨v, hcast, rfl⟩⟩
        · next hrd =>
          simp only []
          split
          · intro r h; simp at h
          · intro r h; simp at h
          · intro r h; simp at h
          · exact ⟨hpos'', by rw [if_neg hrd]⟩
  · next hg =>
    have hg' : ff.read = false := by
      simp only [Bool.or_eq_true, not_or, Bool.not_eq_true, decide_eq_true_eq,
        not_not] at hg
      exact hg.1
    exact ⟨rfl, by rw [hg']; simp⟩

/-- Every offset read by the field loop lies in the loop's own span
`[offset, offset + sumLens fs)` (or was already touched before). -/
lemma readFields_touched :
    ∀ (fs : List FilterField) (src : ByteSrc) (offset : Nat) (rec : Record),
      src.pos = offset →
      ∀ x ∈ ((readFields fs src offset rec).2).touched,
        x ∈ src.touched ∨ (offset ≤ x ∧ x < offset + sumLens fs) := by
  intro fs
  induction fs with
  | nil => intro src offset rec hpos x hx; exact Or.inl hx
  | cons ff rest ih =>
    intro src offset rec hpos x hx
    rw [readFields] at hx
    rw [sumLens_cons]
    rcases hst : stepField ff src (offset + ff.field.len) with ⟨o, src'⟩
    have hst' : stepField ff src (src.pos + ff.field.len) = (o, src') := by rw [hpos, hst]
    have hsub := stepField_sub ff src (src.pos + ff.field.len)
    rw [hst'] at hsub
    rw [hst] at hx
    cases o with
    | inl out =>
      rcases hsub.2 x hx with h | h
      · exact Or.inl h
      · right; omega
    | inr ins =>
      have hspec := stepField_spec ff src
      rw [hst'] at hspec
      simp only [contSpec] at hspec
      have hpos' := hspec.1
      have htch := hsub.2
      have hrec : ∀ rec' : Record,
          x ∈ ((readFields rest src' (offset + ff.field.len) rec').2).touched →
          x ∈ src.touched ∨ (offset ≤ x ∧ x < offset + (ff.field.len + sumLens rest)) := by
        intro rec' hmem
        rcases ih src' (offset + ff.field.len) rec' (by omega) x hmem with h | h
        · rcases htch x h with h' | h'
          · exact Or.inl h'
          · right; omega
        · right; omega
      cases ins with
      | none => exact hrec _ hx
      | some v => exact hrec _ hx

/-- A successful field loop computes exactly the reference decode of the
raw bytes (`decodeFields`): the loop's reads and seeks land on each
field's correct slice. -/
lemma readFields_decode :
    ∀ (fs : List FilterField) (src : ByteSrc) (offset : Nat) (rec rec' : Record)
      (src' : ByteSrc),
      src.pos = offset →
      readFields fs src offset rec = (.ok (some rec'), src') →
      decodeFields src.data offset fs rec = some rec' := by
  intro fs
  induction fs with
  | nil =>
    intro src offset rec rec' src' hpos h
    rw [readFields] at h
    obtain ⟨h1, -⟩ := Prod.mk.injEq .. ▸ h
    have hrec := Option.some.inj (ReadOut.ok.inj h1)
    rw [decodeFields, hrec]
  | cons ff rest ih =>
    intro src offset rec rec' src' hpos h
    rw [readFields] at h
    rcases hst : stepField ff src (offset + ff.field.len) with ⟨o, s'⟩
    rw [hst] at h
    have hst' : stepField ff src (src.pos + ff.field.len) = (o, s') := by rw [hpos, hst]
    have hsub := stepField_sub ff src (src.pos + ff.field.len)
    rw [hst'] at hsub
    have hspec := stepField_spec ff src
    rw [hst'] at hspec
    simp only [contSpec] at hspec
    cases o with
    | inl out =>
      obtain ⟨h1, -⟩ := Prod.mk.injEq .. ▸ h
      exact absurd h1 (hspec rec')
    | inr ins =>
      obtain ⟨hpos', hval⟩ := hspec
      have hdata : s'.data = src.data := hsub.1
      cases ins with
      | none =>
        have hrd : ff.read = false := by
          by_cases hr : ff.read = true
          · rw [if_pos hr] at hval
            obtain ⟨v, -, hno⟩ := hval
            simp at hno
          · simp only [Bool.not_eq_true] at hr
            exact hr
        rw [decodeFields, hrd]
        simp only [Bool.false_eq_true, if_false]
        have := ih s' (offset + ff.field.len) rec rec' src' (by omega) h
        rw [hdata] at this
        exact this
      | some v =>
        have hrd : ff.read = true := by
          by_cases hr : ff.read = true
          · exact hr
          · simp only [Bool.not_eq_true] at hr
            rw [hr] at hval
            simp at hval
        rw [if_pos hrd] at hval
        obtain ⟨v', hcast, hv⟩ := hval
        have hvv : v = v' := Option.some.inj hv
        rw [decodeFields, hrd]
        simp only [if_true]
        rw [hpos] at hcast
        rw [hcast]
        have := ih s' (offset + ff.field.len) (recInsert rec (tillzero ff.field.name) v)
          rec' src' (by omega) h
        rw [hdata, hvv] at this
        exact this

/-- Composing the field loop over a list split: a prefix that completes
normally hands its final byte-source state, offset and record to the rest
of the loop. -/
lemma readFields_append :
    ∀ (pre post : List FilterField) (src src₁ : ByteSrc) (offset : Nat)
      (rec rec₁ : Record),
      src.pos = offset →
      readFields pre src offset rec = (.ok (some rec₁), src₁) →
      readFields (pre ++ post) src offset rec
        = readFields post src₁ (offset + sumLens pre) rec₁ := by
  intro pre
  induction pre with
  | nil =>
    intro post src src₁ offset rec rec₁ hpos h
    rw [readFields] at h
    obtain ⟨h1, h2⟩ := Prod.mk.injEq .. ▸ h
    have hrec := Option.some.inj (ReadOut.ok.inj h1)
    rw [List.nil_append, sumLens_nil, Nat.add_zero, hrec, h2]
  | cons ff pp ih =>
    intro post src src₁ offset rec rec₁ hpos h
    rw [readFields] at h
    rw [List.cons_append, readFields]
    rcases hst : stepField ff src (offset + ff.field.len) with ⟨o, s'⟩
    rw [hst] at h
    have hst' : stepField ff src (src.pos + ff.field.len) = (o, s') := by rw [hpos, hst]
    have hspec := stepField_spec ff src
    rw [hst'] at hspec
    simp only [contSpec] at hspec
    cases o with
    | inl out =>
      obtain ⟨h1, -⟩ := Prod.mk.injEq .. ▸ h
      exact absurd h1 (hspec rec₁)
    | inr ins =>
      obtain ⟨hpos', -⟩ := hspec
      have harith : offset + ff.field.len + sumLens pp = offset + sumLens (ff :: pp) := by
        rw [sumLens_cons]; omega
      cases ins with
      | none =>
        simp only [] at h ⊢
        rw [ih post s' src₁ (offset + ff.field.len) rec rec₁ (by omega) h, harith]
      | some v =>
        simp only [] at h ⊢
        rw [ih post s' src₁ (offset + ff.field.len) _ rec₁ (by omega) h, harith]

/-- Lemma: `decodeFields` leaves untouched every key that no included field
writes. -/
lemma decodeFields_lookup_other :
    ∀ (fs : List FilterField) (data : List Nat) (pos : Nat) (rec rec' : Record)
      (k : List Nat),
      decodeFields data pos fs rec = some rec' →
      (∀ ff ∈ fs, ¬(ff.read = true ∧ tillzero ff.field.name = k)) →
      recLookup rec' k = recLookup rec k := by
  intro fs
  induction fs with
  | nil =>
    intro data pos rec rec' k h hno
    rw [decodeFields] at h
    rw [Option.some.inj h]
  | cons ff rest ih =>
    intro data pos rec rec' k h hno
    rw [decodeFields] at h
    by_cases hrd : ff.read = true
    · rw [if_pos hrd] at h
      cases hcast : getFieldValueCasting ff.field (sliceAt data pos ff.field.len) with
      | ok v =>
        rw [hcast] at h
        have hk : tillzero ff.field.name ≠ k := by
          intro hk
          exact hno ff (List.mem_cons_self ff rest) ⟨hrd, hk⟩
        have := ih data (pos + ff.field.len) _ rec' k h
          (fun f hf => hno f (List.mem_cons_of_mem ff hf))
        rw [this, recLookup_recInsert, if_neg hk]
      | err e => rw [hcast] at h; simp at h
      | panicked => rw [hcast] at h; simp at h
    · simp only [Bool.not_eq_true] at hrd
      rw [hrd] at h
      simp only [Bool.false_eq_true, if_false] at h
      exact ih data (pos + ff.field.len) rec rec' k h
        (fun f hf => hno f (List.mem_cons_of_mem ff hf))

/-- In a catalog with pairwise-distinct names, `decodeFields` stores, under
each included field's name, exactly the cast of the slice starting at
`pos + sumLens (fs.take j)` — the field's true byte offset. -/
lemma decodeFields_lookup_read :
    ∀ (fs : List FilterField) (data : List Nat) (pos : Nat) (rec rec' : Record),
      decodeFields data pos fs rec = some rec' →
      (fs.map (fun ff => tillzero ff.field.name)).Nodup →
      ∀ j (hj : j < fs.length), (fs.get ⟨j, hj⟩).read = true →
        ∃ v, getFieldValueCasting (fs.get ⟨j, hj⟩).field
            (sliceAt data (pos + sumLens (fs.take j)) (fs.get ⟨j, hj⟩).field.len)
            = CastOut.ok v ∧
          recLookup rec' (tillzero (fs.get ⟨j, hj⟩).field.name) = some v := by
  intro fs
  induction fs with
  | nil => intro data pos rec rec' h hnd j hj; exact absurd hj (by simp)
  | cons ff rest ih =>
    intro data pos rec rec' h hnd j hj hrdj
    rw [decodeFields] at h
    rw [List.map_cons, List.nodup_cons] at hnd
    cases j with
    | zero =>
      simp only [List.get] at hrdj ⊢
      rw [if_pos hrdj] at h
      cases hcast : getFieldValueCasting ff.field (sliceAt data pos ff.field.len) with
      | ok v =>
        rw [hcast] at h
        refine ⟨v, by simpa [sumLens_nil] using hcast, ?_⟩
        have hother := decodeFields_lookup_other rest data (pos + ff.field.len) _ rec'
          (tillzero ff.field.name) h ?_
        · rw [hother, recLookup_recInsert, if_pos rfl]
        · intro f hf hcon
          exact hnd.1 (hcon.2 ▸ List.mem_map_of_mem (fun g => tillzero g.field.name) hf)
      | err e => rw [hcast] at h; simp at h
      | panicked => rw [hcast] at h; simp at h
    | succ j' =>
      have hj' : j' < rest.length := by simpa using hj
      have harith : pos + sumLens ((ff :: rest).take (j' + 1))
          = (pos + ff.field.len) + sumLens (rest.take j') := by
        rw [List.take_succ_cons, sumLens_cons]; omega
      by_cases hrd : ff.read = true
      · rw [if_pos hrd] at h
        cases hcast : getFieldValueCasting ff.field (sliceAt data pos ff.field.len) with
        | ok v =>
          rw [hcast] at h
          have := ih data (pos + ff.field.len) _ rec' h hnd.2 j' hj' (by simpa using hrdj)
          rw [harith]
          simpa using this
        | err e => rw [hcast] at h; simp at h
        | panicked => rw [hcast] at h; simp at h
      · simp only [Bool.not_eq_true] at hrd
        rw [hrd] at h
        simp only [Bool.false_eq_true, if_false] at h
        have := ih data (pos + ff.field.len) rec rec' h hnd.2 j' hj' (by simpa using hrdj)
        rw [harith]
        simpa using this

lemma sliceAt_one (data : List Nat) (p : Nat) (h : p < data.length) :
    sliceAt data p 1 = [data.getD p 0] := by
  rw [sliceAt, List.drop_eq_getElem_cons h, List.take_succ_cons, List.take_zero,
    List.getD_eq_getElem data 0 h]

lemma readFull_one (data : List Nat) (p : Nat) (t : List Nat) (h : p < data.length) :
    readFull ⟨data, p, t⟩ 1 = (some [data.getD p 0], ⟨data, p + 1, t ++ [p]⟩) := by
  unfold readFull
  simp [sliceAt_one data p h, List.range'_one]

/-- Unfolding of `Read` once the deletion-marker byte exists: the
four-way dispatch on that byte, in the source's order of checks. -/
lemma Read_eq (r : Reader) (i : Nat)
    (hlt : r.headerlen + r.recordlen * i < r.data.length) :
    Read r i =
      (if r.data.getD (r.headerlen + r.recordlen * i) 0 = 26 then
        (if r.flags &&& FlagSkipWeird ≠ 0 then (ReadOut.skip, markerSrc r i)
         else (ReadOut.eof, markerSrc r i))
      else if r.data.getD (r.headerlen + r.recordlen * i) 0 = 42 then
        (if r.flags &&& FlagSkipDeleted ≠ 0 then (ReadOut.skip, markerSrc r i)
         else (ReadOut.deleted i, markerSrc r i))
      else if r.data.getD (r.headerlen + r.recordlen * i) 0 ≠ 32 then
        (ReadOut.badMarker i (r.data.getD (r.headerlen + r.recordlen * i) 0), markerSrc r i)
      else readFields r.fields (markerSrc r i) (r.headerlen + r.recordlen * i + 1) []) := by
  unfold Read
  simp only []
  rw [readFull_one r.data (r.headerlen + r.recordlen * i) [] hlt]
  simp only [List.nil_append, List.headD_cons, markerSrc]

lemma filterValue_of_cast_err {ff : FilterField} {buf : List Nat} {e : GoError}
    (h : getFieldValueCasting ff.field buf = CastOut.err e) :
    filterValue ff buf = FilterOut.err e := by
  unfold filterValue
  rw [h]

/-- A failed cast of a read field aborts the field loop with that error,
whether or not a filter is attached. -/
lemma readFields_cast_err (f : Field) (flt : Filter) (rest : List FilterField)
    (src : ByteSrc) (offset : Nat) (rec : Record) (buf : List Nat) (src' : ByteSrc)
    (e : GoError) (hrf : readFull src f.len = (some buf, src'))
    (hcast : getFieldValueCasting f buf = CastOut.err e) :
    readFields (⟨flt, true, f⟩ :: rest) src offset rec = (ReadOut.goErr e, src') := by
  rw [readFields]
  have hstep : stepField ⟨flt, true, f⟩ src (offset + f.len)
      = (Sum.inl (ReadOut.goErr e), src') := by
    unfold stepField
    rw [if_pos (by simp)]
    rw [hrf]
    simp only []
    by_cases hfv : flt.value = []
    · rw [if_pos hfv, hcast]
      simp
    · rw [if_neg hfv, filterValue_of_cast_err hcast]
  rw [hstep]

/-- A `Read` that produced a record implies: the marker byte existed and
was the space byte, and the outcome is that of the field loop started
just past the marker. -/
lemma Read_ok_some {r : Reader} {i : Nat} {rec : Record} {src' : ByteSrc}
    (h : Read r i = (ReadOut.ok (some rec), src')) :
    r.headerlen + r.recordlen * i < r.data.length ∧
      r.data.getD (r.headerlen + r.recordlen * i) 0 = 32 ∧
      readFields r.fields (markerSrc r i) (r.headerlen + r.recordlen * i + 1) []
        = (ReadOut.ok (some rec), src') := by
  by_cases hlt : r.headerlen + r.recordlen * i < r.data.length
  · rw [Read_eq r i hlt] at h
    by_cases h26 : r.data.getD (r.headerlen + r.recordlen * i) 0 = 26
    · rw [if_pos h26] at h
      split at h <;> simp at h
    · rw [if_neg h26] at h
      by_cases h42 : r.data.getD (r.headerlen + r.recordlen * i) 0 = 42
      · rw [if_pos h42] at h
        split at h <;> simp at h
      · rw [if_neg h42] at h
        by_cases h32 : r.data.getD (r.headerlen + r.recordlen * i) 0 ≠ 32
        · rw [if_pos h32] at h
          simp at h
        · rw [if_neg h32] at h
          push_neg at h32
          exact ⟨hlt, h32, h⟩
  · exfalso
    unfold Read at h
    simp only [] at h
    rcases hrf : readFull ⟨r.data, r.headerlen + r.recordlen * i, []⟩ 1 with ⟨o, s1⟩
    rw [hrf] at h
    cases o with
    | none => simp at h
    | some got =>
      have hfail : (readFull ⟨r.data, r.headerlen + r.recordlen * i, []⟩ 1).1 = none := by
        unfold readFull
        simp only []
        have hzero : (sliceAt r.data (r.headerlen + r.recordlen * i) 1).length = 0 := by
          rw [sliceAt_length]
          omega
        rw [if_neg (by omega)]
      rw [hrf] at hfail
      simp at hfail

lemma clearEmptyFilter_field (ff : FilterField) :
    (clearEmptyFilter ff).field = ff.field := by
  unfold clearEmptyFilter
  split <;> rfl

lemma stepField_clearEmptyFilter (ff : FilterField) (src : ByteSrc) (offset' : Nat) :
    stepField (clearEmptyFilter ff) src offset' = stepField ff src offset' := by
  unfold clearEmptyFilter
  by_cases hfv : ff.filter.value = []
  · rw [if_pos hfv]
    simp [stepField, hfv]
  · rw [if_neg hfv]

lemma readFields_clearEmptyFilter :
    ∀ (fs : List FilterField) (src : ByteSrc) (offset : Nat) (rec : Record),
      readFields (fs.map clearEmptyFilter) src offset rec = readFields fs src offset rec := by
  intro fs
  induction fs with
  | nil => intro src offset rec; rfl
  | cons ff rest ih =>
    intro src offset rec
    rw [List.map_cons, readFields, readFields]
    simp only [clearEmptyFilter_field, stepField_clearEmptyFilter]
    rcases hst : stepField ff src (offset + ff.field.len) with ⟨o, src'⟩
    cases o with
    | inl out => rfl
    | inr ins =>
      cases ins with
      | none => simp only []; exact ih src' (offset + ff.field.len) rec
      | some v => simp only []; exact ih src' (offset + ff.field.len) _

/-! ### Claim theorems -/

/-- C1 (counterexample): the claim says a non-empty 8-digit date decodes
to the calendar date under **every** flag combination, but under
`DateAsSQL` the decoder emits the ISO text "2023-01-15", not a
calendar-date value. -/
theorem C1_counterexample :
    readDateField FlagDateAssql (strBytes "20230115")
        = Except.ok (DbfValue.str (strBytes "2023-01-15")) ∧
      ¬∃ y m d, readDateField FlagDateAssql (strBytes "20230115")
        = Except.ok (DbfValue.date y m d) := by
  have hval : readDateField FlagDateAssql (strBytes "20230115")
      = Except.ok (DbfValue.str (strBytes "2023-01-15")) := by decide
  refine ⟨hval, ?_⟩
  rintro ⟨y, m, d, h⟩
  rw [hval] at h
  have := Except.ok.inj h
  simp at this

/-- C1 (amended): a non-empty parsable 8-digit value decodes to the
calendar date with no flags and to its ISO text form under `DateAsSQL`
(with or without `EmptyDateAsZero`); an all-space value yields the zero
calendar date with no flags, the empty text with `DateAsSQL`, and the
literal text "0000-00-00" with `DateAsSQL|EmptyDateAsZero`. -/
theorem C1_amended (buf : List Nat) (y m d : Nat)
    (h : timeParseYYYYMMDD (trimSpace buf) = some (y, m, d)) :
    (readDateField 0 buf = Except.ok (DbfValue.date y m d) ∧
      readDateField FlagDateAssql buf = Except.ok (DbfValue.str (formatISO y m d)) ∧
      readDateField (FlagDateAssql ||| FlagEmptyDateAsZero) buf
        = Except.ok (DbfValue.str (formatISO y m d))) ∧
    (readDateField 0 (strBytes "        ") = Except.ok (DbfValue.date 1 1 1) ∧
      readDateField FlagDateAssql (strBytes "        ") = Except.ok (DbfValue.str []) ∧
      readDateField (FlagDateAssql ||| FlagEmptyDateAsZero) (strBytes "        ")
        = Except.ok (DbfValue.str (strBytes "0000-00-00"))) := by
  refine ⟨⟨?_, ?_, ?_⟩, by decide, by decide, by decide⟩
  all_goals unfold readDateField
  all_goals simp only []
  all_goals rw [h]
  all_goals simp only []
  · rw [if_neg (by decide)]
  · rw [if_pos (by decide)]
  · rw [if_pos (by decide)]

theorem C1_amended_witness :
    timeParseYYYYMMDD (trimSpace (strBytes "20230115")) = some (2023, 1, 15) ∧
      readDateField 0 (strBytes "20230115") = Except.ok (DbfValue.date 2023 1 15) ∧
      readDateField FlagDateAssql (strBytes "20230115")
        = Except.ok (DbfValue.str (formatISO 2023 1 15)) :=
  have h : timeParseYYYYMMDD (trimSpace (strBytes "20230115")) = some (2023, 1, 15) := by
    decide
  have happ := C1_amended (strBytes "20230115") 2023 1 15 h
  ⟨h, happ.1.1, happ.1.2.1⟩

/-- C2: the deletion-marker matrix of `Read`: ' ' proceeds to the field
loop; '*' yields the skip signal under `FlagSkipDeleted` and the deleted
signal (naming the index) otherwise; 0x1A yields the skip signal under
`FlagSkipWeird` and the end-of-data signal otherwise; any other byte
yields the unexpected-marker error carrying the byte and the index. -/
theorem C2_marker_matrix (r : Reader) (i : Nat)
    (hlt : r.headerlen + r.recordlen * i < r.data.length) :
    (r.data.getD (r.headerlen + r.recordlen * i) 0 = 32 →
      Read r i = readFields r.fields (markerSrc r i) (r.headerlen + r.recordlen * i + 1) []) ∧
    (r.data.getD (r.headerlen + r.recordlen * i) 0 = 42 →
      (r.flags &&& FlagSkipDeleted ≠ 0 → (Read r i).1 = ReadOut.skip) ∧
      (r.flags &&& FlagSkipDeleted = 0 → (Read r i).1 = ReadOut.deleted i)) ∧
    (r.data.getD (r.headerlen + r.recordlen * i) 0 = 26 →
      (r.flags &&& FlagSkipWeird ≠ 0 → (Read r i).1 = ReadOut.skip) ∧
      (r.flags &&& FlagSkipWeird = 0 → (Read r i).1 = ReadOut.eof)) ∧
    (r.data.getD (r.headerlen + r.recordlen * i) 0 ≠ 32 →
      r.data.getD (r.headerlen + r.recordlen * i) 0 ≠ 42 →
      r.data.getD (r.headerlen + r.recordlen * i) 0 ≠ 26 →
      (Read r i).1 = ReadOut.badMarker i (r.data.getD (r.headerlen + r.recordlen * i) 0)) := by
  rw [Read_eq r i hlt]
  refine ⟨?_, ?_, ?_, ?_⟩
  · intro hb
    rw [hb]
    norm_num
  · intro hb
    rw [hb]
    norm_num
    constructor
    · intro hf
      rw [if_neg hf]
    · intro hf
      rw [if_pos hf]
  · intro hb
    rw [hb]
    norm_num
    constructor
    · intro hf
      rw [if_neg hf]
    · intro hf
      rw [if_pos hf]
  · intro h32 h42 h26
    rw [if_neg h26, if_neg h42, if_pos h32]

theorem C2_marker_matrix_witness :
    (0 + 1 * 0 < 1) ∧
      (Read ⟨[42], 1900, 1, 1, 1, [], 0, 1, 0⟩ 0).1
        = ReadOut.deleted 0 :=
  have h := C2_marker_matrix ⟨[42], 1900, 1, 1, 1, [], 0, 1, 0⟩ 0 (by decide)
  ⟨by decide, (h.2.1 (by decide)).2 (by decide)⟩

/-- C8 (counterexample): `FieldInfo` at a negative index panics (the
`i >= len` guard does not catch it and the slice index is negative),
which is neither the descriptor nor the "no such field" error. -/
theorem C8_counterexample :
    FieldInfo ⟨[], 1900, 1, 1, 0, [⟨⟨"", []⟩, true, ⟨[65], 67, 0, 1, 0⟩⟩], 33, 2, 0⟩ (-1)
        = FieldInfoOut.panicked ∧
      FieldInfoOut.panicked ≠ FieldInfoOut.noField (-1) ∧
      ∀ f : Field, FieldInfoOut.panicked ≠ FieldInfoOut.info f := by
  refine ⟨by decide, by decide, ?_⟩
  intro f h
  simp at h

/-- C8 (amended): for every **non-negative** index, `FieldInfo` returns
the descriptor when the index is in range and the "no such field" error
otherwise; a negative index instead panics. -/
theorem C8_amended (r : Reader) (i : Int) (h0 : 0 ≤ i) :
    (i < (r.fields.length : Int) →
      ∃ ff, r.fields.get? i.toNat = some ff ∧ FieldInfo r i = FieldInfoOut.info ff.field) ∧
    ((r.fields.length : Int) ≤ i → FieldInfo r i = FieldInfoOut.noField i) := by
  constructor
  · intro hlt
    have htn : i.toNat < r.fields.length := by omega
    rw [FieldInfo, if_neg (by omega), if_neg (by omega)]
    rw [List.get?_eq_get htn]
    exact ⟨r.fields.get ⟨i.toNat, htn⟩, rfl, rfl⟩
  · intro hge
    rw [FieldInfo, if_pos hge]

theorem C8_amended_witness :
    ((0 : Int) ≤ 0 ∧
      FieldInfo ⟨[], 1900, 1, 1, 0, [⟨⟨"", []⟩, true, ⟨[65], 67, 0, 1, 0⟩⟩], 33, 2, 0⟩ 0
        = FieldInfoOut.info ⟨[65], 67, 0, 1, 0⟩) ∧
      FieldInfo ⟨[], 1900, 1, 1, 0, [⟨⟨"", []⟩, true, ⟨[65], 67, 0, 1, 0⟩⟩], 33, 2, 0⟩ 3
        = FieldInfoOut.noField 3 := by
  have h := C8_amended ⟨[], 1900, 1, 1, 0, [⟨⟨"", []⟩, true, ⟨[65], 67, 0, 1, 0⟩⟩], 33, 2, 0⟩
    0 (by decide)
  have h3 := C8_amended ⟨[], 1900, 1, 1, 0, [⟨⟨"", []⟩, true, ⟨[65], 67, 0, 1, 0⟩⟩], 33, 2, 0⟩
    3 (by decide)
  obtain ⟨ff, hff, hinfo⟩ := h.1 (by decide)
  refine ⟨⟨by decide, ?_⟩, h3.2 (by decide)⟩
  have : (⟨⟨"", []⟩, true, ⟨[65], 67, 0, 1, 0⟩⟩ : FilterField) = ff := by
    have heval : ([⟨⟨"", []⟩, true, ⟨[65], 67, 0, 1, 0⟩⟩] : List FilterField).get? 0
        = some ⟨⟨"", []⟩, true, ⟨[65], 67, 0, 1, 0⟩⟩ := rfl
    exact Option.some.inj (heval.symm.trans hff)
  rw [hinfo, ← this]

/-- C9: decoding an 'I' field reads a 4-byte little-endian word from the
field's buffer and is total only when the declared length is at least 4;
a shorter declared length makes the decode panic instead of returning an
error value. -/
theorem C9_integer_panic (f : Field) (buf : List Nat) (hty : f.type = 73)
    (hlen : buf.length = f.len) :
    (4 ≤ f.len → getFieldValueCasting f buf
      = CastOut.ok (some (DbfValue.int32 (toInt32
          (le32 (buf.getD 0 0) (buf.getD 1 0) (buf.getD 2 0) (buf.getD 3 0)))))) ∧
    (f.len < 4 → getFieldValueCasting f buf = CastOut.panicked) := by
  unfold getFieldValueCasting
  rw [hty, if_neg (by decide), if_pos rfl, hlen]
  constructor
  · intro h4
    rw [if_neg (by omega)]
  · intro h4
    rw [if_pos (by omega)]

theorem C9_integer_panic_witness :
    ((4 ≤ 4 → getFieldValueCasting ⟨[78, 49, 0], 73, 0, 4, 0⟩ [1, 2, 0, 0]
        = CastOut.ok (some (DbfValue.int32 513))) ∧
      getFieldValueCasting ⟨[78, 49, 0], 73, 0, 4, 0⟩ [1, 2, 0, 0]
        = CastOut.ok (some (DbfValue.int32 513))) ∧
      getFieldValueCasting ⟨[78, 50, 0], 73, 0, 2, 0⟩ [1, 2] = CastOut.panicked := by
  have h4 := C9_integer_panic ⟨[78, 49, 0], 73, 0, 4, 0⟩ [1, 2, 0, 0] rfl rfl
  have h2 := C9_integer_panic ⟨[78, 50, 0], 73, 0, 2, 0⟩ [1, 2] rfl rfl
  have hv : getFieldValueCasting ⟨[78, 49, 0], 73, 0, 4, 0⟩ [1, 2, 0, 0]
      = CastOut.ok (some (DbfValue.int32 513)) := by
    rw [h4.1 (by decide)]
    decide
  exact ⟨⟨fun _ => hv, hv⟩, h2.2 (by decide)⟩

/-- C6: decoding a numeric ('N') field: an all-whitespace span decodes to
the integer 0; with 0 declared decimal places the trimmed text is parsed
as an integer, otherwise as a floating-point number; and a parse failure
aborts the record read with that error. -/
theorem C6_numeric (f : Field) (buf : List Nat) (hty : f.type = 78) :
    (trimSpace buf = [] → getFieldValueCasting f buf = CastOut.ok (some (DbfValue.int 0))) ∧
    (trimSpace buf ≠ [] → f.decimalPlaces = 0 →
      getFieldValueCasting f buf =
        (match Atoi (trimSpace buf) with
         | some n => CastOut.ok (some (DbfValue.int n))
         | none => CastOut.err (GoError.parseIntErr (trimSpace buf)))) ∧
    (trimSpace buf ≠ [] → f.decimalPlaces ≠ 0 →
      getFieldValueCasting f buf =
        (match ParseFloat (trimSpace buf) with
         | some q => CastOut.ok (some (DbfValue.float q))
         | none => CastOut.err (GoError.parseFloatErr (trimSpace buf)))) ∧
    (∀ (flt : Filter) (rest : List FilterField) (src : ByteSrc) (offset : Nat)
        (rec : Record) (buf' : List Nat) (src' : ByteSrc) (e : GoError),
      readFull src f.len = (some buf', src') →
      getFieldValueCasting f buf' = CastOut.err e →
      readFields (⟨flt, true, f⟩ :: rest) src offset rec = (ReadOut.goErr e, src')) := by
  refine ⟨?_, ?_, ?_, readFields_cast_err f⟩
  · intro hempty
    unfold getFieldValueCasting
    simp only []
    rw [hty, if_neg (by decide), if_neg (by decide), if_pos rfl, if_pos hempty]
  · intro hne hdp
    unfold getFieldValueCasting
    simp only []
    rw [hty, if_neg (by decide), if_neg (by decide), if_pos rfl, if_neg hne, if_pos hdp]
  · intro hne hdp
    unfold getFieldValueCasting
    simp only []
    rw [hty, if_neg (by decide), if_neg (by decide), if_pos rfl, if_neg hne, if_neg hdp]

theorem C6_numeric_witness :
    ((65 : Nat) = 65 ∧ trimSpace (strBytes " 42") ≠ [] ∧
      getFieldValueCasting ⟨strBytes "QTY", 78, 0, 3, 0⟩ (strBytes " 42")
        = CastOut.ok (some (DbfValue.int 42))) ∧
      getFieldValueCasting ⟨strBytes "QTY", 78, 0, 3, 0⟩ (strBytes "   ")
        = CastOut.ok (some (DbfValue.int 0)) := by
  have h := C6_numeric ⟨strBytes "QTY", 78, 0, 3, 0⟩ (strBytes " 42") rfl
  have hz := C6_numeric ⟨strBytes "QTY", 78, 0, 3, 0⟩ (strBytes "   ") rfl
  refine ⟨⟨rfl, by decide, ?_⟩, hz.1 (by decide)⟩
  rw [h.2.1 (by decide) rfl]
  decide

/-- C5 (counterexample): a filter on a date field is *supported* (the
type switch has a `time.Time` case), so "any other decoded value type
yields an unsupported-filter configuration error" is false: here the
predicate evaluates to `true` with no error. -/
theorem C5_counterexample :
    getFieldValueCasting ⟨strBytes "DT", 68, 0, 8, 0⟩ (strBytes "20230115")
        = CastOut.ok (some (DbfValue.date 2023 1 15)) ∧
      filterValue ⟨⟨"=", strBytes "2023-01-15"⟩, true, ⟨strBytes "DT", 68, 0, 8, 0⟩⟩
          (strBytes "20230115")
        = FilterOut.ok true ∧
      filterValue ⟨⟨"=", strBytes "2023-01-15"⟩, true, ⟨strBytes "DT", 68, 0, 8, 0⟩⟩
          (strBytes "20230115")
        ≠ FilterOut.err (GoError.unsupportedFilter (strBytes "DT")) := by
  refine ⟨by decide, by decide, by decide⟩

/-- C5 (amended): the filter engine dispatches on the decoded value's
dynamic type: text values support only "=" (any other operator is a
configuration error); decoded Go-int values parse the literal as an
integer and support "=", ">", "<" (a non-numeric literal is a
configuration error); decoded calendar-date values parse the literal as
ISO "YYYY-MM-DD" and support "=", ">", "<"; every other decoded type
(floats, logical runes, raw int32, nil) is an unsupported-filter
configuration error naming the field. -/
theorem C5_amended (ff : FilterField) (buf : List Nat) :
    (∀ s, getFieldValueCasting ff.field buf = CastOut.ok (some (DbfValue.str s)) →
      (ff.filter.condition = "=" → filterValue ff buf = FilterOut.ok (s == ff.filter.value)) ∧
      (ff.filter.condition ≠ "=" → filterValue ff buf
        = FilterOut.err (GoError.wrongFilterCondition ff.filter.condition ff.field.name
            "string"))) ∧
    (∀ n, getFieldValueCasting ff.field buf = CastOut.ok (some (DbfValue.int n)) →
      (Atoi ff.filter.value = none → filterValue ff buf
        = FilterOut.err (GoError.wrongFilterType ff.field.name "int")) ∧
      (∀ fv, Atoi ff.filter.value = some fv →
        (ff.filter.condition = "=" → filterValue ff buf = FilterOut.ok (n == fv)) ∧
        (ff.filter.condition = ">" → filterValue ff buf = FilterOut.ok (decide (fv < n))) ∧
        (ff.filter.condition = "<" → filterValue ff buf = FilterOut.ok (decide (n < fv))) ∧
        (ff.filter.condition ≠ "=" → ff.filter.condition ≠ ">" → ff.filter.condition ≠ "<" →
          filterValue ff buf
            = FilterOut.err (GoError.wrongFilterCondition ff.filter.condition ff.field.name
                "int")))) ∧
    (∀ y m d, getFieldValueCasting ff.field buf = CastOut.ok (some (DbfValue.date y m d)) →
      (timeParseISO ff.filter.value = none → filterValue ff buf
        = FilterOut.err (GoError.wrongFilterType ff.field.name "Y-m-d")) ∧
      (∀ fy fm fd, timeParseISO ff.filter.value = some (fy, fm, fd) →
        (ff.filter.condition = "=" → filterValue ff buf
          = FilterOut.ok ((y, m, d) == ((fy, fm, fd) : Nat × Nat × Nat))) ∧
        (ff.filter.condition = ">" → filterValue ff buf
          = FilterOut.ok (dateLtB (fy, fm, fd) (y, m, d))) ∧
        (ff.filter.condition = "<" → filterValue ff buf
          = FilterOut.ok (dateLtB (y, m, d) (fy, fm, fd))) ∧
        (ff.filter.condition ≠ "=" → ff.filter.condition ≠ ">" → ff.filter.condition ≠ "<" →
          filterValue ff buf
            = FilterOut.err (GoError.wrongFilterCondition ff.filter.condition ff.field.name
                "time.Time")))) ∧
    (∀ v, getFieldValueCasting ff.field buf = CastOut.ok v →
      (∀ s, v ≠ some (DbfValue.str s)) → (∀ n, v ≠ some (DbfValue.int n)) →
      (∀ y m d, v ≠ some (DbfValue.date y m d)) →
      filterValue ff buf = FilterOut.err (GoError.unsupportedFilter ff.field.name)) := by
  refine ⟨?_, ?_, ?_, ?_⟩
  · intro s hcast
    unfold filterValue
    rw [hcast]
    simp only []
    constructor
    · intro hc
      rw [if_pos hc]
    · intro hc
      rw [if_neg hc]
  · intro n hcast
    unfold filterValue
    rw [hcast]
    simp only []
    constructor
    · intro ha
      rw [ha]
    · intro fv ha
      rw [ha]
      simp only []
      refine ⟨fun hc => by rw [if_pos hc], fun hc => ?_, fun hc => ?_, fun h1 h2 h3 => ?_⟩
      · rw [if_neg (by rw [hc]; decide), if_pos hc]
      · rw [if_neg (by rw [hc]; decide), if_neg (by rw [hc]; decide), if_pos hc]
      · rw [if_neg h1, if_neg h2, if_neg h3]
  · intro y m d hcast
    unfold filterValue
    rw [hcast]
    simp only []
    constructor
    · intro ha
      rw [ha]
    · intro fy fm fd ha
      rw [ha]
      simp only []
      refine ⟨fun hc => by rw [if_pos hc], fun hc => ?_, fun hc => ?_, fun h1 h2 h3 => ?_⟩
      · rw [if_neg (by rw [hc]; decide), if_pos hc]
      · rw [if_neg (by rw [hc]; decide), if_neg (by rw [hc]; decide), if_pos hc]
      · rw [if_neg h1, if_neg h2, if_neg h3]
  · intro v hcast hs hn hd
    unfold filterValue
    rw [hcast]
    match v with
    | none => rfl
    | some (DbfValue.str s) => exact absurd rfl (hs s)
    | some (DbfValue.int n) => exact absurd rfl (hn n)
    | some (DbfValue.date y m d) => exact absurd rfl (hd y m d)
    | some (DbfValue.float q) => rfl
    | some (DbfValue.char c) => rfl
    | some (DbfValue.int32 n) => rfl

theorem C5_amended_witness :
    getFieldValueCasting ⟨strBytes "NM", 67, 0, 1, 0⟩ (strBytes "A")
        = CastOut.ok (some (DbfValue.str (strBytes "A"))) ∧
      filterValue ⟨⟨">", strBytes "A"⟩, true, ⟨strBytes "NM", 67, 0, 1, 0⟩⟩ (strBytes "A")
        = FilterOut.err (GoError.wrongFilterCondition ">" (strBytes "NM") "string") := by
  have h := (C5_amended ⟨⟨">", strBytes "A"⟩, true, ⟨strBytes "NM", 67, 0, 1, 0⟩⟩
    (strBytes "A")).1 (strBytes "A") (by decide)
  exact ⟨by decide, h.2 (by decide)⟩

/-- C3: a field whose attached filter rejects the decoded value aborts
the whole record with the "no value" result `(nil, nil)` — no partial
record, no error. -/
theorem C3_filter_abort (r : Reader) (i : Nat) (pre post : List FilterField)
    (ff : FilterField) (rec₁ : Record) (src₁ src₂ : ByteSrc) (buf : List Nat)
    (hfields : r.fields = pre ++ ff :: post)
    (hlt : r.headerlen + r.recordlen * i < r.data.length)
    (hmark : r.data.getD (r.headerlen + r.recordlen * i) 0 = 32)
    (hpre : readFields pre (markerSrc r i) (r.headerlen + r.recordlen * i + 1) []
      = (ReadOut.ok (some rec₁), src₁))
    (hval : ff.filter.value ≠ [])
    (hrf : readFull src₁ ff.field.len = (some buf, src₂))
    (hflt : filterValue ff buf = FilterOut.ok false) :
    Read r i = (ReadOut.ok none, src₂) := by
  rw [Read_eq r i hlt, hmark]
  norm_num
  rw [hfields]
  rw [readFields_append pre (ff :: post) (markerSrc r i) src₁
    (r.headerlen + r.recordlen * i + 1) [] rec₁ rfl hpre]
  rw [readFields]
  have hstep : stepField ff src₁
      (r.headerlen + r.recordlen * i + 1 + sumLens pre + ff.field.len)
      = (Sum.inl (ReadOut.ok none), src₂) := by
    unfold stepField
    rw [if_pos (by simp [hval]), hrf]
    simp only []
    rw [if_neg hval, hflt]
  rw [hstep]

theorem C3_filter_abort_witness :
    filterValue ⟨⟨">", strBytes "50"⟩, true, ⟨strBytes "V", 78, 0, 2, 0⟩⟩ [52, 55]
        = FilterOut.ok false ∧
      Read ⟨[32, 52, 55], 1900, 1, 1, 1,
          [⟨⟨">", strBytes "50"⟩, true, ⟨strBytes "V", 78, 0, 2, 0⟩⟩], 0, 3, 0⟩ 0
        = (ReadOut.ok none, ⟨[32, 52, 55], 3, [0, 1, 2]⟩) := by
  refine ⟨by decide, ?_⟩
  exact C3_filter_abort
    ⟨[32, 52, 55], 1900, 1, 1, 1,
      [⟨⟨">", strBytes "50"⟩, true, ⟨strBytes "V", 78, 0, 2, 0⟩⟩], 0, 3, 0⟩ 0
    [] [] ⟨⟨">", strBytes "50"⟩, true, ⟨strBytes "V", 78, 0, 2, 0⟩⟩ [] 
    ⟨[32, 52, 55], 1, [0]⟩ ⟨[32, 52, 55], 3, [0, 1, 2]⟩ [52, 55]
    rfl (by decide) (by decide) (by decide) (by decide) (by decide) (by decide)

/-- C10: a filter whose comparison literal is empty behaves exactly as no
filter at all: replacing every empty-literal filter by the zero-value
filter changes neither the field loop nor `Read` — the predicate is never
evaluated, the field is decoded or skipped as an unfiltered field, and no
configuration error can arise from its operator. -/
theorem C10_empty_filter_ignored :
    (∀ (fs : List FilterField) (src : ByteSrc) (offset : Nat) (rec : Record),
      readFields (fs.map clearEmptyFilter) src offset rec = readFields fs src offset rec) ∧
    (∀ (r : Reader) (i : Nat),
      Read { r with fields := r.fields.map clearEmptyFilter } i = Read r i) := by
  refine ⟨readFields_clearEmptyFilter, ?_⟩
  intro r i
  unfold Read
  simp only []
  rcases hrf : readFull ⟨r.data, r.headerlen + r.recordlen * i, []⟩ 1 with ⟨o, s1⟩
  cases o with
  | none => rfl
  | some got =>
    simp only []
    by_cases h26 : got.headD 0 = 26
    · rw [if_pos h26, if_pos h26]
    · rw [if_neg h26, if_neg h26]
      by_cases h42 : got.headD 0 = 42
      · rw [if_pos h42, if_pos h42]
      · rw [if_neg h42, if_neg h42]
        by_cases h32 : got.headD 0 ≠ 32
        · rw [if_pos h32, if_pos h32]
        · rw [if_neg h32, if_neg h32]
          exact readFields_clearEmptyFilter r.fields s1 (r.headerlen + r.recordlen * i + 1) []

/-- C4: after `SetReadFields names`, each catalog entry's inclusion flag
equals whether its name is listed (unknown names match nothing, hence are
ignored); a successful `Read` then returns a record whose keys all belong
to included fields, and each included field's stored value is the cast of
the bytes at the field's true offset
`headerlen + recordlen*i + 1 + sum of the preceding lengths` — the seeks
over excluded fields consume no bytes and later fields decode from the
correct offsets. -/
theorem C4_projection (r0 : Reader) (names : List (List Nat)) (i : Nat)
    (rec : Record) (src' : ByteSrc)
    (hnodup : (((SetReadFields r0 names).fields).map
      (fun ff => tillzero ff.field.name)).Nodup)
    (hread : Read (SetReadFields r0 names) i = (ReadOut.ok (some rec), src')) :
    (∀ ff ∈ (SetReadFields r0 names).fields,
      ff.read = names.contains (tillzero ff.field.name)) ∧
    (∀ k, recLookup rec k ≠ none →
      ∃ j, ∃ hj : j < (SetReadFields r0 names).fields.length,
        ((SetReadFields r0 names).fields.get ⟨j, hj⟩).read = true ∧
        tillzero (((SetReadFields r0 names).fields.get ⟨j, hj⟩)).field.name = k) ∧
    (∀ j (hj : j < (SetReadFields r0 names).fields.length),
      ((SetReadFields r0 names).fields.get ⟨j, hj⟩).read = true →
      ∃ v, getFieldValueCasting ((SetReadFields r0 names).fields.get ⟨j, hj⟩).field
          (sliceAt r0.data
            (r0.headerlen + r0.recordlen * i + 1
              + sumLens (((SetReadFields r0 names).fields).take j))
            (((SetReadFields r0 names).fields.get ⟨j, hj⟩)).field.len)
          = CastOut.ok v ∧
        recLookup rec (tillzero (((SetReadFields r0 names).fields.get ⟨j, hj⟩)).field.name)
          = some v) := by
  obtain ⟨hlt, hmark, hrf⟩ := Read_ok_some hread
  have hdec : decodeFields r0.data (r0.headerlen + r0.recordlen * i + 1)
      (SetReadFields r0 names).fields [] = some rec :=
    readFields_decode (SetReadFields r0 names).fields
      (markerSrc (SetReadFields r0 names) i)
      (r0.headerlen + r0.recordlen * i + 1) [] rec src' rfl hrf
  refine ⟨?_, ?_, ?_⟩
  · intro ff hff
    rw [SetReadFields] at hff
    simp only [List.mem_map] at hff
    obtain ⟨ff0, -, hmap⟩ := hff
    rw [← hmap]
  · intro k hk
    by_contra hno
    apply hk
    have hother : recLookup rec k = recLookup ([] : Record) k := by
      apply decodeFields_lookup_other _ r0.data _ [] rec k hdec
      intro ffx hmem hcon
      obtain ⟨n, hget⟩ := List.mem_iff_get.mp hmem
      exact hno ⟨n.1, n.2, by rw [hget]; exact hcon.1, by rw [hget]; exact hcon.2⟩
    rw [hother]
    rfl
  · intro j hj hrd
    exact decodeFields_lookup_read (SetReadFields r0 names).fields r0.data
      (r0.headerlen + r0.recordlen * i + 1) [] rec hdec hnodup j hj hrd

theorem C4_projection_witness :
    ((((SetReadFields c4r0 [strBytes "NAME"]).fields).map
        (fun ff => tillzero ff.field.name)).Nodup ∧
      Read (SetReadFields c4r0 [strBytes "NAME"]) 1
        = (ReadOut.ok (some [([78, 65, 77, 69], some (DbfValue.str [65, 110, 110]))]),
            ⟨c4data, 109, [103, 104, 105, 106]⟩)) ∧
      (∃ v, getFieldValueCasting
            ((SetReadFields c4r0 [strBytes "NAME"]).fields.get ⟨0, by decide⟩).field
            (sliceAt c4r0.data
              (c4r0.headerlen + c4r0.recordlen * 1 + 1
                + sumLens (((SetReadFields c4r0 [strBytes "NAME"]).fields).take 0))
              (((SetReadFields c4r0 [strBytes "NAME"]).fields.get ⟨0, by decide⟩)).field.len)
            = CastOut.ok v ∧
          recLookup [([78, 65, 77, 69], some (DbfValue.str [65, 110, 110]))]
            (tillzero (((SetReadFields c4r0 [strBytes "NAME"]).fields.get
              ⟨0, by decide⟩)).field.name)
            = some v) := by
  have hnodup : (((SetReadFields c4r0 [strBytes "NAME"]).fields).map
      (fun ff => tillzero ff.field.name)).Nodup := by decide
  have hread : Read (SetReadFields c4r0 [strBytes "NAME"]) 1
      = (ReadOut.ok (some [([78, 65, 77, 69], some (DbfValue.str [65, 110, 110]))]),
          ⟨c4data, 109, [103, 104, 105, 106]⟩) := by decide
  have h := C4_projection c4r0 [strBytes "NAME"] 1
    [([78, 65, 77, 69], some (DbfValue.str [65, 110, 110]))]
    ⟨c4data, 109, [103, 104, 105, 106]⟩ hnodup hread
  exact ⟨⟨hnodup, hread⟩, h.2.2 0 (by decide) (by decide)⟩

theorem C7_counterexample :
    NewReader c7badData = Except.ok c7badReader ∧
      0 < c7badReader.length ∧
      ((Read c7badReader 0).2.touched).all
          (fun x => decide (x < c7badReader.headerlen
            + c7badReader.recordlen * c7badReader.length))
        = false := by
  refine ⟨by decide, by decide, by decide⟩

/-- C7 (amended): for every file whose header passes open's validation
**and** whose field lengths fit inside the declared record length
(`1 + Σ len ≤ recordLength` — a consistency the header parser does not
enforce), `read(i)` for `0 ≤ i < recordCount` touches only offsets
strictly below `headerLength + recordLength × recordCount`. -/
theorem C7_amended (data : List Nat) (r : Reader) (i : Nat)
    (hopen : NewReader data = Except.ok r)
    (hfit : 1 + sumLens r.fields ≤ r.recordlen)
    (hi : i < r.length) :
    ((Read r i).2.touched).all
      (fun x => decide (x < r.headerlen + r.recordlen * r.length)) = true := by
  rw [List.all_eq_true]
  intro x hx
  rw [decide_eq_true_eq]
  have hmul : r.recordlen * i + r.recordlen ≤ r.recordlen * r.length := by
    have h2 : r.recordlen * (i + 1) ≤ r.recordlen * r.length :=
      Nat.mul_le_mul_left _ (by omega)
    rw [Nat.mul_succ] at h2
    exact h2
  have hms : x ∈ (markerSrc r i).touched →
      x < r.headerlen + r.recordlen * r.length := by
    intro hmem
    simp [markerSrc] at hmem
    omega
  by_cases hlt : r.headerlen + r.recordlen * i < r.data.length
  · rw [Read_eq r i hlt] at hx
    by_cases h26 : r.data.getD (r.headerlen + r.recordlen * i) 0 = 26
    · rw [if_pos h26] at hx
      split at hx
      · exact hms hx
      · exact hms hx
    · rw [if_neg h26] at hx
      by_cases h42 : r.data.getD (r.headerlen + r.recordlen * i) 0 = 42
      · rw [if_pos h42] at hx
        split at hx
        · exact hms hx
        · exact hms hx
      · rw [if_neg h42] at hx
        by_cases h32 : r.data.getD (r.headerlen + r.recordlen * i) 0 ≠ 32
        · rw [if_pos h32] at hx
          exact hms hx
        · rw [if_neg h32] at hx
          rcases readFields_touched r.fields (markerSrc r i)
            (r.headerlen + r.recordlen * i + 1) [] rfl x hx with h | h
          · exact hms h
          · omega
  · unfold Read at hx
    simp only [] at hx
    rcases hrf : readFull ⟨r.data, r.headerlen + r.recordlen * i, []⟩ 1 with ⟨o, s1⟩
    rw [hrf] at hx
    cases o with
    | some got =>
      exfalso
      have hfail : (readFull ⟨r.data, r.headerlen + r.recordlen * i, []⟩ 1).1 = none := by
        unfold readFull
        simp only []
        rw [if_neg (by rw [sliceAt_length]; omega)]
      rw [hrf] at hfail
      simp at hfail
    | none =>
      rcases (readFull_eq_none hrf).2 x hx with h | h
      · simp at h
      · have hp : (⟨r.data, r.headerlen + r.recordlen * i, []⟩ : ByteSrc).pos
            = r.headerlen + r.recordlen * i := rfl
        rw [hp] at h
        omega

theorem C7_amended_witness :
    NewReader c7okData = Except.ok c7okReader ∧
      1 + sumLens c7okReader.fields ≤ c7okReader.recordlen ∧
      0 < c7okReader.length ∧
      ((Read c7okReader 0).2.touched).all
          (fun x => decide (x < c7okReader.headerlen
            + c7okReader.recordlen * c7okReader.length))
        = true :=
  ⟨by decide, by decide, by decide,
    C7_amended c7okData c7okReader 0 (by decide) (by decide) (by decide)⟩

end Dbf

